import Mathlib

/-!
Verification development for `simnet.py`, a siamese-style contrastive-loss
training script.  The Python/TensorFlow source is shallowly embedded below:
tensors become (nested) lists of reals, `tf.map_fn` becomes `List.map`,
`tf.reduce_sum(·, 0)` on a vector becomes `List.sum` and on a matrix becomes a
fold of element-wise addition over the rows, `tf.reduce_mean` becomes
sum-divided-by-length, and the integer batch arithmetic of the main loop
becomes natural-number arithmetic.
-/

/-! ## Batch arithmetic of the epoch loop (`__main__`, lines 133-141) -/

/-- `n_batches = int(x_train.shape[0]/batch_size)`: truncating division of the
training-set size by the batch size. -/
def nBatches (n b : ℕ) : ℕ := n / b

/-- Section sizes used by `np.array_split(np.arange n, k)`: the first `n % k`
sections have size `n / k + 1`, the remaining ones size `n / k`. -/
def arraySplitSizes (n k : ℕ) : List ℕ :=
  (List.range k).map (fun i => n / k + if i < n % k then 1 else 0)

/-- Cut a list into consecutive blocks of the given sizes. -/
def splitBySizes : List ℕ → List α → List (List α)
  | [], _ => []
  | s :: ss, xs => xs.take s :: splitBySizes ss (xs.drop s)

/-- `np.array_split(np.arange n, k)`: the index blocks the epoch loop
iterates over. -/
def arraySplit (n k : ℕ) : List (List ℕ) :=
  splitBySizes (arraySplitSizes n k) (List.range n)

/-- The index blocks of one epoch: `np.array_split(np.arange(x_train.shape[0]),
indices_or_sections=n_batches)`. -/
def epochBlocks (n b : ℕ) : List (List ℕ) :=
  arraySplit n (nBatches n b)

/-! ## The Encoder's attribute names (class `Encoder`, lines 21-72) and the
visualization block (`__main__`, lines 147-154) -/

/-- The attribute names the `Encoder` class itself defines: the instance
attributes assigned in `__init__` and the methods of the class body.  (The
inherited `tf.keras.Model` base is an external collaborator; it defines no
attribute named `call_encoder` either, so lookup of a name outside this list
raises `AttributeError`.) -/
def encoderAttrs : List String :=
  ["__init__", "cv", "pool", "cv2", "pool2", "flatten", "dense",
   "call", "distance", "make_predict"]

/-- Outcome of the post-training visualization block. -/
inductive VisOutcome where
  | attrError : VisOutcome
  | plotted : VisOutcome
deriving DecidableEq

/-- The visualization block: it first evaluates `model.call_encoder(images)`;
if the attribute lookup fails, an `AttributeError` propagates and
`plot_embedding` is never reached. -/
def visualizationPhase : VisOutcome :=
  if "call_encoder" ∈ encoderAttrs then VisOutcome.plotted else VisOutcome.attrError

/-! ## Real-valued tensor operations -/

noncomputable section

/-- Element-wise product summed: the dot product of two vectors. -/
def dot (a b : List ℝ) : ℝ := (List.zipWith (fun x y => x * y) a b).sum

/-- Element-wise vector addition (`tf` broadcasting addition of two
equal-length vectors). -/
def addVec (a b : List ℝ) : List ℝ := List.zipWith (fun x y => x + y) a b

/-- Element-wise vector subtraction. -/
def subVec (a b : List ℝ) : List ℝ := List.zipWith (fun x y => x - y) a b

/-- `tf.reduce_sum(m, 0)` on a 2-D tensor: sums over axis 0, i.e. adds up the
rows element-wise, producing one value per column. -/
def reduceSum0 (m : List (List ℝ)) : List ℝ :=
  match m with
  | [] => []
  | r :: rs => rs.foldl addVec r

/-- `tf.reduce_mean` of a 1-D tensor. -/
def mean (l : List ℝ) : ℝ := l.sum / (l.length : ℝ)

/-- Sum of squared entries of a vector (the spec's `sum(d_i^2)`). -/
def sumSq (v : List ℝ) : ℝ := (v.map (fun x => x ^ 2)).sum

/-- `Encoder.distance` (line 57) applied to a rank-1 tensor `difference`:
`tf.sqrt(tf.reduce_sum(tf.pow(difference, 2), 0))`; on a vector,
`reduce_sum(·, 0)` is the plain sum, so this is `sqrt` of the sum of
squares. -/
def distance (v : List ℝ) : ℝ := Real.sqrt ((v.map (fun x => x ^ 2)).sum)

/-- `Encoder.distance` (line 57) applied directly to a rank-2 tensor (a batch
of difference vectors, one per row): `tf.pow` squares element-wise,
`tf.reduce_sum(·, 0)` sums over the batch axis (down each column), and
`tf.sqrt` applies element-wise to the resulting per-column sums. -/
def distanceOnBatch (m : List (List ℝ)) : List ℝ :=
  (reduceSum0 (m.map (fun r => r.map (fun x => x ^ 2)))).map Real.sqrt

/-- The scalar function the loss lambda of `simnet_loss` (lines 87-88) applies
element-wise: `y * distance^2 + (1-y) * max(0, 1-distance)^2`. -/
def lossTerm (y d : ℝ) : ℝ := y * d ^ 2 + (1 - y) * (max 0 (1 - d)) ^ 2

/-- `simnet_loss(target, x1, x2)` (lines 83-90).  `difference = x1 - x2`
row-wise; `tf.map_fn(distance, difference)` gives the per-row distances;
the second `tf.map_fn`'s lambda multiplies the whole `target` *vector* with
each scalar distance, so each distance yields a vector of one term per label
(an `N×N` tensor overall), and `tf.reduce_mean` averages all its entries. -/
def simnetLoss (target : List ℝ) (x1 x2 : List (List ℝ)) : ℝ :=
  let difference := List.zipWith subVec x1 x2
  let distance_vector := difference.map distance
  let loss := distance_vector.map (fun d => target.map (fun y => lossTerm y d))
  mean loss.flatten

/-- The loss the specification describes: the arithmetic mean over pairs `i`
of `y_i * d_i^2 + (1 - y_i) * max(0, 1 - d_i)^2`, each pair's term using that
pair's own label and distance. -/
def specSimnetLoss (target : List ℝ) (x1 x2 : List (List ℝ)) : ℝ :=
  mean (List.zipWith lossTerm target ((List.zipWith subVec x1 x2).map distance))

/-- The thresholding lambda of `make_predict` (line 71):
`0.0 if x <= threshold else 1.0`. -/
def thresholdLabel (threshold x : ℝ) : ℝ := if x ≤ threshold then 0 else 1

/-- The per-pair embedding distances computed inside `make_predict`
(lines 65-69): split the pair batch, encode both halves with `call`, take
`out = x2 - x1`, and map `Encoder.distance` over the rows of `out`. -/
def pairDistances {α : Type} (call : α → List ℝ) (pair : List (α × α)) : List ℝ :=
  let x1 := pair.map (fun p => p.1)
  let x2 := pair.map (fun p => p.2)
  let e1 := x1.map call
  let e2 := x2.map call
  let out := List.zipWith subVec e2 e1
  out.map distance

/-- `Encoder.make_predict(pair, threshold)` (lines 61-72): the per-pair
distances, thresholded to 0/1 labels. -/
def makePredict {α : Type} (call : α → List ℝ) (pair : List (α × α))
    (threshold : ℝ) : List ℝ :=
  (pairDistances call pair).map (thresholdLabel threshold)

/-- `make_predict` with the difference taken in the specification's order
`e1 - e2` instead of the code's `x2 - x1` (for comparing the two orders). -/
def makePredictSpecOrder {α : Type} (call : α → List ℝ) (pair : List (α × α))
    (threshold : ℝ) : List ℝ :=
  ((List.zipWith subVec (pair.map (fun p => call p.1))
      (pair.map (fun p => call p.2))).map distance).map (thresholdLabel threshold)

/-- `tf.keras.metrics.binary_accuracy(y_true, y_pred)` with its default
threshold 0.5: the mean of the indicator that `y_true` equals `y_pred`
thresholded at 0.5. -/
def binaryAccuracy (yTrue yPred : List ℝ) : ℝ :=
  mean (List.zipWith
    (fun t p => if t = (if (1 : ℝ) / 2 < p then (1 : ℝ) else 0) then (1 : ℝ) else 0)
    yTrue yPred)

/-- `test_step(x_test, y_test)` (lines 106-110):
`binary_accuracy(model.make_predict(x_test, threshold=0.5), y_test)`. -/
def testStep {α : Type} (call : α → List ℝ) (pairs : List (α × α))
    (labels : List ℝ) : ℝ :=
  binaryAccuracy (makePredict call pairs ((1 : ℝ) / 2)) labels

/-- The specification's accuracy: the fraction of the batch where the
predicted label matches the ground-truth label. -/
def specAccuracy (preds labels : List ℝ) : ℝ :=
  (List.zipWith (fun p y => if p = y then (1 : ℝ) else 0) preds labels).sum
    / (labels.length : ℝ)

/-- The body of one epoch of the training loop (`__main__`, lines 134-141):
`np.array_split` fails when `n_batches = 0`; otherwise the per-batch losses
of the index blocks are accumulated and divided by `n_batches`.  `lossOf`
abstracts the loss `train_step` returns on a given index block. -/
def runEpoch (n b : ℕ) (lossOf : List ℕ → ℝ) : Except String ℝ :=
  let nb := nBatches n b
  if nb = 0 then
    Except.error "ValueError: number sections must be larger than 0."
  else
    Except.ok (((arraySplit n nb).map lossOf).sum / (nb : ℝ))

/-- The reported epoch loss in the non-failing case: accumulated per-batch
loss divided by `n_batches`. -/
def reportedEpochLoss (n b : ℕ) (lossOf : List ℕ → ℝ) : ℝ :=
  ((epochBlocks n b).map lossOf).sum / ((nBatches n b) : ℝ)

/-! ## The Encoder network (`Encoder.__init__`/`Encoder.call`, lines 27-51)

A channels-last tensor of rank 3 (height × width × channels) is a list of
rows, each row a list of pixels, each pixel a list of channel values.  The
layers are embedded value-level with the learned weights as parameters. -/

/-- A height × width × channels tensor. -/
abbrev Tensor3 := List (List (List ℝ))

/-- The `relu` activation. -/
def relu (x : ℝ) : ℝ := max 0 x

/-- Read the channel vector of pixel `(i, j)`; out-of-bounds reads (used for
the zero padding of a same-padding convolution) return the empty vector,
whose dot product with anything is 0. -/
def getPix (t : Tensor3) (i j : ℤ) : List ℝ :=
  if 0 ≤ i ∧ 0 ≤ j then (t.getD i.toNat []).getD j.toNat [] else []

/-- One convolution filter: a 3 × 3 spatial window of per-input-channel
weight vectors. -/
abbrev Kernel := List (List (List ℝ))

/-- One output value of a 3×3 same-padding convolution with `relu` activation
(`Conv2D(·, (3, 3), activation='relu', padding='Same')`): the windowed dot
product plus the filter bias, rectified. -/
def convPixel (ker : Kernel) (b : ℝ) (t : Tensor3) (i j : ℕ) : ℝ :=
  relu (b + ((List.range 3).map (fun di =>
    ((List.range 3).map (fun dj =>
      dot ((ker.getD di []).getD dj [])
        (getPix t ((i : ℤ) + di - 1) ((j : ℤ) + dj - 1)))).sum)).sum)

/-- A same-padding 3×3 convolution layer: one output channel per
(filter, bias) entry, at every spatial position of the input. -/
def conv2dSame (kbs : List (Kernel × ℝ)) (t : Tensor3) : Tensor3 :=
  t.enum.map (fun ir =>
    ir.2.enum.map (fun jc =>
      kbs.map (fun kb => convPixel kb.1 kb.2 t ir.1 jc.1)))

/-- Element-wise maximum of two channel vectors. -/
def maxVec (a b : List ℝ) : List ℝ := List.zipWith (fun x y => max x y) a b

/-- `MaxPooling2D((2, 2))`: 2×2 windows with stride 2 and valid padding, so
both spatial dimensions are halved (rounding down). -/
def pool2 (t : Tensor3) : Tensor3 :=
  (List.range (t.length / 2)).map (fun i =>
    (List.range ((t.getD (2 * i) []).length / 2)).map (fun j =>
      maxVec
        (maxVec (getPix t (2 * i) (2 * j)) (getPix t (2 * i) (2 * j + 1)))
        (maxVec (getPix t (2 * i + 1) (2 * j)) (getPix t (2 * i + 1) (2 * j + 1)))))

/-- `Flatten()` of a channels-last tensor: row-major over (row, column,
channel), exactly the concatenation of all pixel channel vectors. -/
def flattenT (t : Tensor3) : List ℝ := t.flatten.flatten

/-- Column `j` of the kernel matrix `W` (shape input-dim × units) dotted with
the input vector `x`. -/
def dotCol (W : List (List ℝ)) (x : List ℝ) (j : ℕ) : ℝ :=
  (List.zipWith (fun xi row => xi * row.getD j 0) x W).sum

/-- `Dense(units, activation=None)`: the affine map `x ↦ x W + b` with no
activation; the output has one entry per bias entry (= per unit). -/
def denseLayer (W : List (List ℝ)) (b : List ℝ) (x : List ℝ) : List ℝ :=
  List.zipWith (fun j bj => dotCol W x j + bj) (List.range b.length) b

/-- The learned parameters of the `Encoder` instance: the two convolution
layers' (kernel, bias) lists and the dense layer's kernel and bias. -/
structure EncoderParams where
  cvK : List (Kernel × ℝ)
  cv2K : List (Kernel × ℝ)
  denseW : List (List ℝ)
  denseB : List ℝ

/-- The output dimension of the final projection: `Dense(5, ...)` (line 39). -/
def embeddingDim : ℕ := 5

/-- A built `Encoder`: `Dense(5)` gives the dense layer a bias (and a kernel
column count) of exactly `embeddingDim = 5` entries. -/
def EncoderParams.wellBuilt (θ : EncoderParams) : Prop :=
  θ.denseB.length = embeddingDim

/-- `Encoder.call(x)` (lines 42-51) on one image: `cv`, `pool`, `cv2`,
`pool2`, `flatten`, `dense`, in that order. -/
def call (θ : EncoderParams) (img : Tensor3) : List ℝ :=
  denseLayer θ.denseW θ.denseB
    (flattenT (pool2 (conv2dSame θ.cv2K (pool2 (conv2dSame θ.cvK img)))))

/-- `Encoder.call` on a batch: every layer acts per-sample, so the batch
output is the per-image output for each image. -/
def callBatch (θ : EncoderParams) (imgs : List Tensor3) : List (List ℝ) :=
  imgs.map (call θ)

/-! ### Layer configuration as written in `Encoder.__init__` (lines 30-40) -/

/-- Activation functions that appear in the constructor calls. -/
inductive ActivationKind where
  | relu : ActivationKind
  | linear : ActivationKind
deriving DecidableEq

/-- Padding modes of `Conv2D`. -/
inductive PaddingKind where
  | same : PaddingKind
  | valid : PaddingKind
deriving DecidableEq

/-- Weight initializers that appear in the constructor calls. -/
inductive InitializerKind where
  | glorotNormal : InitializerKind
deriving DecidableEq

/-- The configuration of a `Conv2D` layer. -/
structure Conv2DConfig where
  filters : ℕ
  kernelSize : ℕ × ℕ
  activation : ActivationKind
  padding : PaddingKind
  kernelInitializer : InitializerKind
  l2Coeff : Option ℝ

/-- The configuration of a `Dense` layer. -/
structure DenseConfig where
  units : ℕ
  activation : ActivationKind
  kernelInitializer : InitializerKind
  l2Coeff : Option ℝ

/-- `self.cv = Conv2D(24, (3, 3), activation='relu', padding='Same',
kernel_initializer=glorot_normal(), kernel_regularizer=l2(0.01))`. -/
def cvConfig : Conv2DConfig :=
  ⟨24, (3, 3), ActivationKind.relu, PaddingKind.same,
   InitializerKind.glorotNormal, some (0.01 : ℝ)⟩

/-- `self.cv2 = Conv2D(24, (3, 3), activation='relu', padding='Same',
kernel_initializer=glorot_normal(), kernel_regularizer=l2(0.01))`. -/
def cv2Config : Conv2DConfig :=
  ⟨24, (3, 3), ActivationKind.relu, PaddingKind.same,
   InitializerKind.glorotNormal, some (0.01 : ℝ)⟩

/-- `self.dense = Dense(5, activation=None,
kernel_initializer=glorot_normal(), kernel_regularizer=l2(0.01))`. -/
def denseConfig : DenseConfig :=
  ⟨5, ActivationKind.linear, InitializerKind.glorotNormal, some (0.01 : ℝ)⟩

/-- Pool size of `self.pool = MaxPooling2D((2, 2))` and of `self.pool2`. -/
def poolSize : ℕ × ℕ := (2, 2)

end

/-! ## Helper lemmas about `splitBySizes` and `arraySplitSizes` -/

lemma length_splitBySizes (ss : List ℕ) (xs : List α) :
    (splitBySizes ss xs).length = ss.length := by
  induction ss generalizing xs with
  | nil => rfl
  | cons s ss ih => simp [splitBySizes, ih]

lemma flatten_splitBySizes (ss : List ℕ) (xs : List α)
    (h : ss.sum = xs.length) : (splitBySizes ss xs).flatten = xs := by
  induction ss generalizing xs with
  | nil =>
    simp only [List.sum_nil] at h
    simp [splitBySizes, (List.eq_nil_of_length_eq_zero h.symm)]
  | cons s ss ih =>
    simp only [List.sum_cons] at h
    have hs : s ≤ xs.length := by omega
    have hd : ss.sum = (xs.drop s).length := by
      rw [List.length_drop]; omega
    simp [splitBySizes, List.flatten_cons, ih (xs.drop s) hd,
      List.take_append_drop]

lemma subset_of_mem_splitBySizes (ss : List ℕ) (xs : List α) (b : List α)
    (hb : b ∈ splitBySizes ss xs) : b ⊆ xs := by
  induction ss generalizing xs with
  | nil => simp [splitBySizes] at hb
  | cons s ss ih =>
    simp only [splitBySizes, List.mem_cons] at hb
    rcases hb with rfl | hb
    · exact List.take_subset s xs
    · exact (ih (xs.drop s) hb).trans (List.drop_subset s xs)

lemma pairwise_disjoint_splitBySizes (ss : List ℕ) (xs : List α)
    (h : xs.Nodup) : (splitBySizes ss xs).Pairwise List.Disjoint := by
  induction ss generalizing xs with
  | nil => exact List.Pairwise.nil
  | cons s ss ih =>
    have hsplit : xs.take s ++ xs.drop s = xs := List.take_append_drop s xs
    have hnd : (xs.take s ++ xs.drop s).Nodup := by rw [hsplit]; exact h
    have hdisj : (xs.take s).Disjoint (xs.drop s) := (List.nodup_append.mp hnd).2.2
    have hdrop : (xs.drop s).Nodup := (List.nodup_append.mp hnd).2.1
    refine List.Pairwise.cons ?_ (ih (xs.drop s) hdrop)
    intro b hb a ha hab
    exact hdisj ha (subset_of_mem_splitBySizes ss (xs.drop s) b hb hab)

lemma sum_map_add_nat (l : List ℕ) (f g : ℕ → ℕ) :
    (l.map (fun x => f x + g x)).sum = (l.map f).sum + (l.map g).sum := by
  induction l with
  | nil => rfl
  | cons x l ih => simp [ih]; omega

lemma sum_map_const_range (k c : ℕ) :
    ((List.range k).map (fun _ => c)).sum = k * c := by
  induction k with
  | zero => simp
  | succ k ih =>
    rw [List.range_succ, List.map_append, List.sum_append, ih]
    simp [Nat.succ_mul]

lemma sum_indicator_range (k r : ℕ) :
    ((List.range k).map (fun i => if i < r then 1 else 0)).sum = min k r := by
  induction k with
  | zero => simp
  | succ k ih =>
    rw [List.range_succ, List.map_append, List.sum_append, ih]
    by_cases hk : k < r
    · simp [hk]; omega
    · simp [hk]; omega

lemma arraySplitSizes_sum (n k : ℕ) (hk : 0 < k) :
    (arraySplitSizes n k).sum = n := by
  unfold arraySplitSizes
  rw [sum_map_add_nat, sum_map_const_range, sum_indicator_range]
  have hlt : n % k < k := Nat.mod_lt n hk
  have := Nat.div_add_mod n k
  omega

/-! ## Claims C3, C5, C10 -/

/-- C3: the `Encoder` class defines no attribute named `call_encoder` (its
forward pass is named `call`), so the visualization block's
`model.call_encoder(images)` raises an `AttributeError` and `plot_embedding`
is never reached. -/
theorem c3_call_encoder_missing :
    "call_encoder" ∉ encoderAttrs ∧ "call" ∈ encoderAttrs ∧
    visualizationPhase = VisOutcome.attrError ∧
    visualizationPhase ≠ VisOutcome.plotted := by
  decide

/-- C5: with 18000 training pairs and batch size 180, `n_batches` is exactly
100, the epoch loop runs exactly 100 train steps, their index blocks are
pairwise disjoint and jointly cover the whole training set in order, and the
reported epoch loss divides the accumulated loss by exactly 100. -/
theorem c5_batch_count_exact :
    nBatches 18000 180 = 100 ∧
    (epochBlocks 18000 180).length = 100 ∧
    (epochBlocks 18000 180).flatten = List.range 18000 ∧
    (epochBlocks 18000 180).Pairwise List.Disjoint ∧
    ∀ lossOf : List ℕ → ℝ,
      reportedEpochLoss 18000 180 lossOf =
        ((epochBlocks 18000 180).map lossOf).sum / 100 := by
  have hnb : nBatches 18000 180 = 100 := by decide
  have hsum : (arraySplitSizes 18000 100).sum = 18000 :=
    arraySplitSizes_sum 18000 100 (by decide)
  refine ⟨hnb, ?_, ?_, ?_, ?_⟩
  · rw [epochBlocks, hnb, arraySplit, length_splitBySizes]
    simp [arraySplitSizes]
  · rw [epochBlocks, hnb, arraySplit]
    exact flatten_splitBySizes _ _ (by rw [hsum, List.length_range])
  · rw [epochBlocks, hnb, arraySplit]
    exact pairwise_disjoint_splitBySizes _ _ (List.nodup_range 18000)
  · intro lossOf
    rw [reportedEpochLoss, hnb]
    norm_num

/-- C10: if `0 < batch_size ≤ training-set size` then `n_batches ≥ 1` and the
epoch computation succeeds (in particular the epoch-average division is not a
division by zero); if the training set is smaller than the batch size then
`n_batches = 0` and the epoch computation is fatal. -/
theorem c10_nbatches_guard :
    (∀ (n b : ℕ) (lossOf : List ℕ → ℝ), 0 < b → b ≤ n →
       1 ≤ nBatches n b ∧ ∃ r, runEpoch n b lossOf = Except.ok r) ∧
    (∀ (n b : ℕ) (lossOf : List ℕ → ℝ), n < b →
       nBatches n b = 0 ∧
       runEpoch n b lossOf =
         Except.error "ValueError: number sections must be larger than 0.") := by
  constructor
  · intro n b lossOf hb hbn
    have h1 : 1 ≤ nBatches n b := (Nat.one_le_div_iff hb).mpr hbn
    refine ⟨h1, ?_⟩
    rw [runEpoch]
    rw [if_neg (by omega)]
    exact ⟨_, rfl⟩
  · intro n b lossOf hnb
    have h0 : nBatches n b = 0 := Nat.div_eq_of_lt hnb
    refine ⟨h0, ?_⟩
    rw [runEpoch]
    rw [if_pos h0]

/-! ## Helper lemmas about `distance` and `subVec` -/

lemma sumsq_zipWith_sub_comm :
    ∀ a b : List ℝ,
      ((List.zipWith (fun x y => x - y) a b).map (fun x => x ^ 2)).sum =
      ((List.zipWith (fun x y => x - y) b a).map (fun x => x ^ 2)).sum := by
  intro a
  induction a with
  | nil => intro b; cases b <;> simp
  | cons x xs ih =>
    intro b
    cases b with
    | nil => simp
    | cons y ys =>
      simp only [List.zipWith_cons_cons, List.map_cons, List.sum_cons]
      rw [ih ys, show (x - y) ^ 2 = (y - x) ^ 2 by ring]

lemma distance_sub_comm (a b : List ℝ) :
    distance (subVec a b) = distance (subVec b a) := by
  unfold distance subVec
  rw [sumsq_zipWith_sub_comm]

lemma map_distance_zipWith_sub_comm :
    ∀ u v : List (List ℝ),
      (List.zipWith subVec u v).map distance =
      (List.zipWith subVec v u).map distance := by
  intro u
  induction u with
  | nil => intro v; cases v <;> simp
  | cons x xs ih =>
    intro v
    cases v with
    | nil => simp
    | cons y ys =>
      simp only [List.zipWith_cons_cons, List.map_cons]
      rw [ih ys, distance_sub_comm]

/-! ## Concrete square-root and distance evaluations -/

lemma sqrt_twentyfive : Real.sqrt 25 = 5 := by
  rw [show (25 : ℝ) = 5 ^ 2 by norm_num, Real.sqrt_sq (by norm_num : (0 : ℝ) ≤ 5)]

lemma sqrt_nine : Real.sqrt 9 = 3 := by
  rw [show (9 : ℝ) = 3 ^ 2 by norm_num, Real.sqrt_sq (by norm_num : (0 : ℝ) ≤ 3)]

lemma sqrt_sixteen : Real.sqrt 16 = 4 := by
  rw [show (16 : ℝ) = 4 ^ 2 by norm_num, Real.sqrt_sq (by norm_num : (0 : ℝ) ≤ 4)]

lemma distance_three_four : distance [(3 : ℝ), 4] = 5 := by
  have h : (([(3 : ℝ), 4]).map (fun x => x ^ 2)).sum = 25 := by norm_num
  unfold distance
  rw [h, sqrt_twentyfive]

lemma distance_zero_zero : distance [(0 : ℝ), 0] = 0 := by
  have h : (([(0 : ℝ), 0]).map (fun x => x ^ 2)).sum = 0 := by norm_num
  unfold distance
  rw [h, Real.sqrt_zero]

/-! ## Auxiliary `getD` lemmas -/

lemma getD_map_of_lt (f : α → β) (l : List α) (j : ℕ) (d : β) (d' : α)
    (h : j < l.length) : (l.map f).getD j d = f (l.getD j d') := by
  rw [List.getD_eq_getElem _ _ (by simpa using h), List.getD_eq_getElem _ _ h,
    List.getElem_map]

lemma addVec_getD (r x : List ℝ) (j : ℕ) (hr : j < r.length) (hx : j < x.length) :
    (addVec r x).getD j 0 = r.getD j 0 + x.getD j 0 := by
  have hlen : j < (addVec r x).length := by
    rw [addVec, List.length_zipWith]; omega
  rw [List.getD_eq_getElem _ _ hlen, List.getD_eq_getElem _ _ hr,
    List.getD_eq_getElem _ _ hx]
  exact List.getElem_zipWith ..

lemma foldl_addVec_spec (w : ℕ) :
    ∀ (rs : List (List ℝ)) (r : List ℝ), (∀ x ∈ rs, x.length = w) →
      r.length = w →
      (rs.foldl addVec r).length = w ∧
      ∀ j, j < w → (rs.foldl addVec r).getD j 0 =
        r.getD j 0 + (rs.map (fun x => x.getD j 0)).sum := by
  intro rs
  induction rs with
  | nil =>
    intro r _ hr
    exact ⟨hr, fun j _ => by simp⟩
  | cons x rs ih =>
    intro r hmem hr
    have hx : x.length = w := hmem x (List.mem_cons_self x rs)
    have haddlen : (addVec r x).length = w := by
      rw [addVec, List.length_zipWith, hr, hx, min_self]
    have hrec := ih (addVec r x)
      (fun y hy => hmem y (List.mem_cons_of_mem x hy)) haddlen
    refine ⟨hrec.1, fun j hj => ?_⟩
    rw [List.foldl_cons, hrec.2 j hj,
      addVec_getD r x j (by omega) (by omega), List.map_cons, List.sum_cons]
    ring

/-! ## Claims C1 and C2 -/

/-- C1 (divergence): on the batch `target = [1, 0]`, `x1 = [[3,4],[0,0]]`,
`x2 = [[0,0],[0,0]]` (per-pair distances `[5, 0]`), the code's `simnet_loss`
returns `13/2`: its second `tf.map_fn` lambda multiplies the whole label
vector with each scalar distance, so the mean runs over all label × distance
combinations.  The per-pair loss the claim (and the spec) describes is `13`. -/
theorem c1_simnet_loss_broadcasts_labels :
    simnetLoss [1, 0] [[3, 4], [0, 0]] [[0, 0], [0, 0]] = 13 / 2 ∧
    specSimnetLoss [1, 0] [[3, 4], [0, 0]] [[0, 0], [0, 0]] = 13 ∧
    (13 / 2 : ℝ) ≠ 13 := by
  have hsub : List.zipWith subVec [[(3 : ℝ), 4], [0, 0]] [[0, 0], [0, 0]] =
      [[3, 4], [0, 0]] := by
    norm_num [subVec]
    rfl
  have hdist : List.map distance [[(3 : ℝ), 4], [0, 0]] = [5, 0] := by
    rw [List.map_cons, List.map_cons, List.map_nil, distance_three_four,
      distance_zero_zero]
  have l15 : lossTerm 1 5 = 25 := by norm_num [lossTerm, max_def]
  have l05 : lossTerm 0 5 = 0 := by norm_num [lossTerm, max_def]
  have l10 : lossTerm 1 0 = 0 := by norm_num [lossTerm, max_def]
  have l00 : lossTerm 0 0 = 1 := by norm_num [lossTerm, max_def]
  refine ⟨?_, ?_, by norm_num⟩
  · unfold simnetLoss
    rw [hsub]
    simp only [hdist, List.map_cons, List.map_nil, List.flatten_cons,
      List.flatten_nil, l15, l05, l10, l00]
    norm_num [mean]
  · unfold specSimnetLoss
    rw [hsub, hdist]
    simp only [List.zipWith_cons_cons, List.zipWith_nil_right, l15, l00]
    norm_num [mean]

/-- C2 (counterexample): on the 3-row batch `[[3,0],[4,0],[0,0]]`,
`Encoder.distance` invoked directly returns `[5, 0]` — the per-column norms
over the batch axis (only 2 values for 3 rows) — not the per-row distances
`[3, 4, 0]`. -/
theorem c2_distance_batch_counterexample :
    distanceOnBatch [[(3 : ℝ), 0], [4, 0], [0, 0]] = [5, 0] ∧
    ([[(3 : ℝ), 0], [4, 0], [0, 0]].map distance) = [3, 4, 0] ∧
    distanceOnBatch [[(3 : ℝ), 0], [4, 0], [0, 0]] ≠
      [[(3 : ℝ), 0], [4, 0], [0, 0]].map distance := by
  have h1 : distanceOnBatch [[(3 : ℝ), 0], [4, 0], [0, 0]] = [5, 0] := by
    have hsq : ([[(3 : ℝ), 0], [4, 0], [0, 0]].map
        (fun r => r.map (fun x => x ^ 2))) = [[9, 0], [16, 0], [0, 0]] := by
      norm_num
    have hred : reduceSum0 [[(9 : ℝ), 0], [16, 0], [0, 0]] = [25, 0] := by
      show List.foldl addVec [(9 : ℝ), 0] [[16, 0], [0, 0]] = [25, 0]
      norm_num [addVec]
    unfold distanceOnBatch
    rw [hsq, hred, List.map_cons, List.map_cons, List.map_nil,
      sqrt_twentyfive, Real.sqrt_zero]
  have h2 : ([[(3 : ℝ), 0], [4, 0], [0, 0]].map distance) = [3, 4, 0] := by
    have d3 : distance [(3 : ℝ), 0] = 3 := by
      have h : (([(3 : ℝ), 0]).map (fun x => x ^ 2)).sum = 9 := by norm_num
      unfold distance; rw [h, sqrt_nine]
    have d4 : distance [(4 : ℝ), 0] = 4 := by
      have h : (([(4 : ℝ), 0]).map (fun x => x ^ 2)).sum = 16 := by norm_num
      unfold distance; rw [h, sqrt_sixteen]
    rw [List.map_cons, List.map_cons, List.map_cons, List.map_nil, d3, d4,
      distance_zero_zero]
  refine ⟨h1, h2, ?_⟩
  rw [h1, h2]
  intro h
  rw [List.cons.injEq] at h
  exact absurd h.1 (by norm_num)

/-- C2 (amended): on a single difference vector, `Encoder.distance` is the
Euclidean norm; invoked directly on a nonempty rectangular batch of
difference vectors (one per row, all of width `w`), it reduces **across the
batch**: it returns `w` values, the `j`-th being the Euclidean norm of the
`j`-th column.  (Per-row distances are what the callers obtain by mapping it
over the rows with `tf.map_fn`.) -/
theorem c2_distance_batch_semantics :
    (∀ v : List ℝ, distance v = Real.sqrt (sumSq v)) ∧
    (∀ (m : List (List ℝ)) (w : ℕ), m ≠ [] → (∀ r ∈ m, r.length = w) →
       (distanceOnBatch m).length = w ∧
       ∀ j, j < w → (distanceOnBatch m).getD j 0 =
         distance (m.map (fun r => r.getD j 0))) := by
  constructor
  · intro v; rfl
  · intro m w hne hrect
    match m with
    | [] => exact absurd rfl hne
    | r :: rs =>
      have hr : (r.map (fun x => x ^ 2)).length = w := by
        rw [List.length_map]; exact hrect r (List.mem_cons_self r rs)
      have hmem : ∀ x ∈ rs.map (fun q => q.map (fun x => x ^ 2)), x.length = w := by
        intro x hx
        rcases List.mem_map.mp hx with ⟨q, hq, rfl⟩
        rw [List.length_map]
        exact hrect q (List.mem_cons_of_mem r hq)
      have hfold := foldl_addVec_spec w (rs.map (fun q => q.map (fun x => x ^ 2)))
        (r.map (fun x => x ^ 2)) hmem hr
      have hred : reduceSum0 ((r :: rs).map (fun q => q.map (fun x => x ^ 2))) =
          (rs.map (fun q => q.map (fun x => x ^ 2))).foldl addVec
            (r.map (fun x => x ^ 2)) := by
        rw [List.map_cons]; rfl
      constructor
      · unfold distanceOnBatch
        rw [hred, List.length_map, hfold.1]
      · intro j hj
        have hjr : j < r.length := by
          rw [hrect r (List.mem_cons_self r rs)]; exact hj
        have hlenred : j < ((rs.map (fun q => q.map (fun x => x ^ 2))).foldl addVec
            (r.map (fun x => x ^ 2))).length := by rw [hfold.1]; exact hj
        unfold distanceOnBatch
        rw [hred, getD_map_of_lt Real.sqrt _ j 0 0 hlenred, hfold.2 j hj]
        unfold distance
        congr 1
        rw [List.map_cons, List.map_cons, List.sum_cons,
          getD_map_of_lt (fun x => x ^ 2) r j 0 0 hjr, List.map_map, List.map_map]
        congr 1
        apply congrArg
        apply List.map_congr_left
        intro q hq
        have hql : j < q.length := by
          rw [hrect q (List.mem_cons_of_mem r hq)]; exact hj
        exact getD_map_of_lt (fun x => x ^ 2) q j 0 0 hql

/-- Witness for the amended C2 at the concrete batch `[[3,0],[4,0]]` of
width 2: two output entries, the first being the distance of column 0. -/
theorem c2_distance_batch_semantics_witness :
    (distanceOnBatch [[(3 : ℝ), 0], [4, 0]]).length = 2 ∧
    (distanceOnBatch [[(3 : ℝ), 0], [4, 0]]).getD 0 0 =
      distance ([[(3 : ℝ), 0], [4, 0]].map (fun r => r.getD 0 0)) := by
  have hrect : ∀ r ∈ [[(3 : ℝ), 0], [4, 0]], r.length = 2 := by
    intro r hr
    rcases List.mem_cons.mp hr with rfl | hr'
    · rfl
    · rcases List.mem_cons.mp hr' with rfl | hr''
      · rfl
      · exact absurd hr'' (List.not_mem_nil r)
  have h := c2_distance_batch_semantics.2 [[(3 : ℝ), 0], [4, 0]] 2
    (by simp) hrect
  exact ⟨h.1, h.2 0 (by norm_num)⟩

/-! ## Claims C6 and C7 -/

/-- C6: the per-pair loss term applied by `simnet_loss`'s lambda satisfies:
for a dissimilar pair (`y = 0`) it is exactly 0 at every distance `d ≥ 1`,
including `d` exactly at the margin 1; for a similar pair (`y = 1`) it equals
`d^2` and is monotone in the distance.  On a one-pair batch, `simnet_loss`
is exactly this term at the pair's distance. -/
theorem c6_loss_margin_hinge :
    (∀ d : ℝ, 1 ≤ d → lossTerm 0 d = 0) ∧
    lossTerm 0 1 = 0 ∧
    (∀ d : ℝ, lossTerm 1 d = d ^ 2) ∧
    (∀ a b : ℝ, 0 ≤ a → a ≤ b → lossTerm 1 a ≤ lossTerm 1 b) ∧
    (∀ (y : ℝ) (v1 v2 : List ℝ),
       simnetLoss [y] [v1] [v2] = lossTerm y (distance (subVec v1 v2))) := by
  refine ⟨?_, ?_, ?_, ?_, ?_⟩
  · intro d hd
    unfold lossTerm
    rw [max_eq_left (by linarith)]
    ring
  · norm_num [lossTerm]
  · intro d; unfold lossTerm; ring
  · intro a b ha hab
    unfold lossTerm
    have h2 : ((1 : ℝ) - 1) = 0 := by norm_num
    rw [h2]
    simp only [zero_mul, add_zero, one_mul]
    exact pow_le_pow_left₀ ha hab 2
  · intro y v1 v2
    simp [simnetLoss, mean]

/-- Witness for C6: the margin case at `d = 1` and monotonicity between
`d = 1` and `d = 2`, obtained from the theorem at those inputs. -/
theorem c6_loss_margin_hinge_witness :
    lossTerm 0 1 = 0 ∧ lossTerm 1 1 ≤ lossTerm 1 2 :=
  ⟨c6_loss_margin_hinge.1 1 (by norm_num),
   c6_loss_margin_hinge.2.2.2.1 1 2 (by norm_num) (by norm_num)⟩

/-- C7: `Encoder.distance` is non-negative and invariant under negating the
difference vector; consequently forming the difference as the code's
`x2 - x1` instead of the spec's `e1 - e2` yields the same distances, and
`make_predict` coincides with its spec-ordered variant. -/
theorem c7_distance_sign_symmetry :
    (∀ v : List ℝ, 0 ≤ distance v) ∧
    (∀ v : List ℝ, distance (v.map (fun x => -x)) = distance v) ∧
    (∀ a b : List ℝ, distance (subVec a b) = distance (subVec b a)) ∧
    (∀ (α : Type) (call : α → List ℝ) (pairs : List (α × α)) (t : ℝ),
       makePredict call pairs t = makePredictSpecOrder call pairs t) := by
  refine ⟨?_, ?_, distance_sub_comm, ?_⟩
  · intro v; exact Real.sqrt_nonneg _
  · intro v
    unfold distance
    rw [List.map_map]
    simp only [Function.comp_def, neg_sq]
  · intro α call pairs t
    unfold makePredict makePredictSpecOrder pairDistances
    rw [map_distance_zipWith_sub_comm]
    simp [List.map_map, Function.comp_def]

/-! ## Helper lemmas for C8 and C9 -/

lemma denseLayer_length (W : List (List ℝ)) (b x : List ℝ) :
    (denseLayer W b x).length = b.length := by
  unfold denseLayer
  rw [List.length_zipWith, List.length_range, min_self]

lemma getD_nonneg_of_forall_mem (l : List ℝ) (c : ℕ) (h : ∀ x ∈ l, 0 ≤ x) :
    0 ≤ l.getD c 0 := by
  by_cases hc : c < l.length
  · rw [List.getD_eq_getElem _ _ hc]
    exact h _ (List.getElem_mem hc)
  · rw [List.getD_eq_default _ _ (by omega)]

lemma conv2dSame_entry_nonneg (kbs : List (Kernel × ℝ)) (t : Tensor3)
    (i j c : ℕ) : 0 ≤ (((conv2dSame kbs t).getD i []).getD j []).getD c 0 := by
  have hmem : ∀ row ∈ conv2dSame kbs t, ∀ pix ∈ row, ∀ v ∈ pix, 0 ≤ v := by
    intro row hrow pix hpix v hv
    rcases List.mem_map.mp hrow with ⟨ir, _, rfl⟩
    rcases List.mem_map.mp hpix with ⟨jc, _, rfl⟩
    rcases List.mem_map.mp hv with ⟨kb, _, rfl⟩
    exact le_max_left 0 _
  by_cases hi : i < (conv2dSame kbs t).length
  · have hrowmem : (conv2dSame kbs t).getD i [] ∈ conv2dSame kbs t := by
      rw [List.getD_eq_getElem _ _ hi]
      exact List.getElem_mem hi
    by_cases hj : j < ((conv2dSame kbs t).getD i []).length
    · have hpixmem : ((conv2dSame kbs t).getD i []).getD j [] ∈
          (conv2dSame kbs t).getD i [] := by
        rw [List.getD_eq_getElem _ _ hj]
        exact List.getElem_mem hj
      exact getD_nonneg_of_forall_mem _ c
        (fun x hx => hmem _ hrowmem _ hpixmem x hx)
    · rw [List.getD_eq_default ((conv2dSame kbs t).getD i []) [] (by omega)]
      simp
  · rw [List.getD_eq_default (conv2dSame kbs t) [] (by omega)]
    simp

/-! ## Claims C8 and C9 -/

/-- C8: on a built encoder (whose `Dense(5)` layer has a bias of length
`embeddingDim = 5`), `Encoder.call` returns exactly one embedding per input
image, each of length exactly 5, for every batch — including batch size 1 —
and for every parameter state of the instance. -/
theorem c8_embedding_dim_invariant :
    ∀ (θ : EncoderParams) (imgs : List Tensor3), θ.wellBuilt →
      (callBatch θ imgs).length = imgs.length ∧
      ∀ e ∈ callBatch θ imgs, e.length = 5 := by
  intro θ imgs hwb
  refine ⟨List.length_map imgs (call θ), ?_⟩
  intro e he
  rcases List.mem_map.mp he with ⟨img, _, rfl⟩
  unfold call
  rw [denseLayer_length, hwb]
  rfl

/-- Witness for C8: a concrete built parameter state and a one-image batch:
one output embedding of length 5. -/
theorem c8_embedding_dim_invariant_witness :
    (callBatch ⟨[], [], [], [0, 0, 0, 0, 0]⟩ [[[[0]]]]).length = 1 ∧
    ∀ e ∈ callBatch ⟨[], [], [], [0, 0, 0, 0, 0]⟩ [[[[0]]]], e.length = 5 :=
  c8_embedding_dim_invariant ⟨[], [], [], [0, 0, 0, 0, 0]⟩ [[[[0]]]] rfl

/-- C9: `Encoder.call` is the pipeline conv → pool → conv → pool → flatten →
dense, in that order; both convolutions are 24-filter 3×3 same-padding layers
with `relu` activation (so every convolution output entry is non-negative),
the final dense projection has 5 units and no activation, and every learned
layer uses the Glorot-normal initializer with an L2 penalty of coefficient
0.01. -/
theorem c9_architecture_config :
    (∀ (θ : EncoderParams) (img : Tensor3),
       call θ img = denseLayer θ.denseW θ.denseB
         (flattenT (pool2 (conv2dSame θ.cv2K (pool2 (conv2dSame θ.cvK img)))))) ∧
    (cvConfig.activation = ActivationKind.relu ∧
     cvConfig.padding = PaddingKind.same ∧
     cvConfig.kernelSize = (3, 3) ∧ cvConfig.filters = 24 ∧
     cvConfig.kernelInitializer = InitializerKind.glorotNormal ∧
     cvConfig.l2Coeff = some (1 / 100)) ∧
    cv2Config = cvConfig ∧
    poolSize = (2, 2) ∧
    (denseConfig.units = 5 ∧
     denseConfig.activation = ActivationKind.linear ∧
     denseConfig.kernelInitializer = InitializerKind.glorotNormal ∧
     denseConfig.l2Coeff = some (1 / 100)) ∧
    (∀ (kbs : List (Kernel × ℝ)) (tens : Tensor3) (i j c : ℕ),
       0 ≤ (((conv2dSame kbs tens).getD i []).getD j []).getD c 0) := by
  refine ⟨fun θ img => rfl, ⟨rfl, rfl, rfl, rfl, rfl, ?_⟩, rfl, rfl,
    ⟨rfl, rfl, rfl, ?_⟩, conv2dSame_entry_nonneg⟩
  · show some (0.01 : ℝ) = some (1 / 100)
    norm_num
  · show some (0.01 : ℝ) = some (1 / 100)
    norm_num

/-! ## Helper lemmas for C4 -/

lemma pairDistances_length {α : Type} (call : α → List ℝ)
    (pairs : List (α × α)) : (pairDistances call pairs).length = pairs.length := by
  unfold pairDistances
  simp [List.length_zipWith]

lemma makePredict_length {α : Type} (call : α → List ℝ) (pairs : List (α × α))
    (t : ℝ) : (makePredict call pairs t).length = pairs.length := by
  unfold makePredict
  rw [List.length_map, pairDistances_length]

lemma zipWith_keras_indicator_eq :
    ∀ (preds labels : List ℝ), (∀ y ∈ labels, y = 0 ∨ y = 1) →
      List.zipWith (fun t p =>
          if t = (if (1 : ℝ) / 2 < p then (1 : ℝ) else 0) then (1 : ℝ) else 0)
        preds labels =
      List.zipWith (fun p y => if p = y then (1 : ℝ) else 0) preds labels := by
  intro preds
  induction preds with
  | nil => intro labels _; simp
  | cons p ps ih =>
    intro labels hl
    cases labels with
    | nil => simp
    | cons y ys =>
      simp only [List.zipWith_cons_cons]
      have ht : (if (1 : ℝ) / 2 < y then (1 : ℝ) else 0) = y := by
        rcases hl y (List.mem_cons_self y ys) with rfl | rfl
        · rw [if_neg (by norm_num)]
        · rw [if_pos (by norm_num)]
      rw [ht, ih ys (fun z hz => hl z (List.mem_cons_of_mem y hz))]

lemma sum_eq_indicator_self :
    ∀ l : List ℝ,
      (List.zipWith (fun p y => if p = y then (1 : ℝ) else 0) l l).sum =
        (l.length : ℝ) := by
  intro l
  induction l with
  | nil => simp
  | cons x xs ih => simp [ih]; ring

lemma sum_ne_indicator_zero :
    ∀ (a b : List ℝ), (∀ p ∈ List.zip a b, p.1 ≠ p.2) →
      (List.zipWith (fun p y => if p = y then (1 : ℝ) else 0) a b).sum = 0 := by
  intro a
  induction a with
  | nil => intro b _; simp
  | cons x xs ih =>
    intro b hne
    cases b with
    | nil => simp
    | cons y ys =>
      simp only [List.zipWith_cons_cons, List.sum_cons]
      rw [if_neg (hne (x, y) (by simp [List.zip_cons_cons])),
        ih ys (fun p hp => hne p (by simp [List.zip_cons_cons, hp]))]
      norm_num

/-! ## Claim C4 -/

/-- C4: `make_predict` labels a pair `0` exactly when its embedding distance
is at most the threshold (so a distance exactly equal to the threshold yields
`0`) and `1` otherwise; and, for ground-truth labels that are exactly 0 or 1,
`test_step`'s accuracy is the fraction of pairs whose predicted label matches
the ground truth — `1` when every prediction matches (on a nonempty batch)
and `0` when every prediction is wrong. -/
theorem c4_threshold_and_accuracy :
    ∀ (α : Type) (call : α → List ℝ) (pairs : List (α × α)) (t : ℝ)
      (labels : List ℝ),
      (makePredict call pairs t).length = pairs.length ∧
      (∀ i, i < pairs.length →
         (makePredict call pairs t).getD i 0 =
           if (pairDistances call pairs).getD i 0 ≤ t then 0 else 1) ∧
      (∀ d : ℝ, d = t → thresholdLabel t d = 0) ∧
      ((∀ y ∈ labels, y = 0 ∨ y = 1) → labels.length = pairs.length →
         testStep call pairs labels =
             specAccuracy (makePredict call pairs ((1 : ℝ) / 2)) labels ∧
           (makePredict call pairs ((1 : ℝ) / 2) = labels → 0 < pairs.length →
              testStep call pairs labels = 1) ∧
           ((∀ p ∈ List.zip (makePredict call pairs ((1 : ℝ) / 2)) labels,
               p.1 ≠ p.2) →
              testStep call pairs labels = 0)) := by
  intro α call pairs t labels
  refine ⟨makePredict_length call pairs t, ?_, ?_, ?_⟩
  · intro i hi
    have hlen : i < (pairDistances call pairs).length := by
      rw [pairDistances_length]; exact hi
    unfold makePredict
    rw [getD_map_of_lt (thresholdLabel t) _ i 0 0 hlen]
    rfl
  · intro d hd
    rw [hd]
    unfold thresholdLabel
    rw [if_pos le_rfl]
  · intro h01 hlen
    have heq : testStep call pairs labels =
        specAccuracy (makePredict call pairs ((1 : ℝ) / 2)) labels := by
      unfold testStep binaryAccuracy specAccuracy mean
      rw [zipWith_keras_indicator_eq _ _ h01]
      rw [List.length_zipWith, makePredict_length, ← hlen, min_self]
    refine ⟨heq, ?_, ?_⟩
    · intro hmatch hpos
      rw [heq, hmatch]
      unfold specAccuracy
      rw [sum_eq_indicator_self]
      have : (labels.length : ℝ) ≠ 0 := by
        rw [hlen]
        exact Nat.cast_ne_zero.mpr (by omega)
      field_simp
    · intro hwrong
      rw [heq]
      unfold specAccuracy
      rw [sum_ne_indicator_zero _ _ hwrong]
      simp

/-- Witness for C4: one pair of 2-vectors at distance 5 with label 1: the
prediction is 1, every prediction matches, and the accuracy is 1. -/
theorem c4_threshold_and_accuracy_witness :
    testStep (fun v : List ℝ => v) [([0, 0], [3, 4])] [1] = 1 := by
  have hmatch : makePredict (fun v : List ℝ => v) [([0, 0], [3, 4])]
      ((1 : ℝ) / 2) = [1] := by
    unfold makePredict pairDistances
    simp only [List.map_cons, List.map_nil, List.zipWith_cons_cons,
      List.zipWith_nil_right]
    have hs : subVec [(3 : ℝ), 4] [0, 0] = [3, 4] := by
      norm_num [subVec]
    rw [hs, distance_three_four]
    unfold thresholdLabel
    rw [if_neg (by norm_num)]
  exact ((c4_threshold_and_accuracy (List ℝ) (fun v => v) [([0, 0], [3, 4])]
      ((1 : ℝ) / 2) [1]).2.2.2
      (by intro y hy; right; simpa using hy) rfl).2.1 hmatch (by norm_num)

/-- Witness for C10 at concrete inputs: `n = 18000, b = 180` satisfies the
precondition and succeeds; `n = 5, b = 7` yields zero batches and fails. -/
theorem c10_nbatches_guard_witness :
    (1 ≤ nBatches 18000 180 ∧
       ∃ r, runEpoch 18000 180 (fun _ => 0) = Except.ok r) ∧
    (nBatches 5 7 = 0 ∧
       runEpoch 5 7 (fun _ => 0) =
         Except.error "ValueError: number sections must be larger than 0.") :=
  ⟨c10_nbatches_guard.1 18000 180 (fun _ => 0) (by decide) (by decide),
   c10_nbatches_guard.2 5 7 (fun _ => 0) (by decide)⟩
